import Mathlib

/-!
# Gym Management System: `static/js/app.js`

A shallow embedding of the browser script `static/js/app.js` and the
properties of it that the specification states.

Modelling conventions

* Strings are sequences of Unicode scalar values (`String` / `List Char`).
  Every character the script inspects (white space, `@`, `.`, `+`, digits)
  lies in the Basic Multilingual Plane, so matching by code points and matching
  by UTF-16 code units agree.
* Browser facilities the script calls (`fetch`, `alert`, `confirm`,
  `setTimeout`, `response.json()`, `response.text()`) are recorded as effects;
  what they hand back to the script is an input of the model.
* The DOM is a list of elements in tree order; an element carries its tag
  name, its attributes, its `value`, its `innerHTML` and its `disabled` flag.
-/

namespace App

/-! ## DOM elements -/

/-- An element of the page, with the properties the script reads or writes. -/
structure Element where
  tag : String
  attrs : List (String × String)
  value : String
  innerHTML : String
  disabled : Bool
  deriving DecidableEq, Repr

/-- The method `element.getAttribute(name)`: the attribute value, or `none`
for the `null` returned when the attribute is missing. -/
def Element.getAttribute (e : Element) (name : String) : Option String :=
  (e.attrs.find? (fun kv => kv.1 == name)).map Prod.snd

/-- Replace the value of the first attribute called `name`, or append it. -/
def setAttr (name v : String) : List (String × String) → List (String × String)
  | [] => [(name, v)]
  | kv :: rest => if kv.1 == name then (name, v) :: rest else kv :: setAttr name v rest

/-- The method `element.setAttribute(name, value)`. -/
def Element.setAttribute (e : Element) (name v : String) : Element :=
  { e with attrs := setAttr name v e.attrs }

/-- The page as `document.getElementById` sees it: its elements in tree order. -/
structure Document where
  elements : List Element
  deriving Repr

/-- The method `document.getElementById(id)`: the first element, in tree
order, whose `id` attribute is `id`. -/
def Document.getElementById (doc : Document) (id : String) : Option Element :=
  doc.elements.find? (fun e => e.getAttribute "id" == some id)

/-! ## ECMAScript values and conversions -/

/-- An error object: its `name` and its `message`. -/
structure JSError where
  name : String
  message : String
  deriving DecidableEq, Repr

/-- The method `Error.prototype.toString`. -/
def JSError.toString (e : JSError) : String :=
  if e.name = "" then e.message
  else if e.message = "" then e.name
  else e.name ++ ": " ++ e.message

/-- The expression `new Error(message)`. -/
def newError (message : String) : JSError := ⟨"Error", message⟩

/-- A value handed to the script by `response.json()`, or obtained from one by
a property read. A number is kept as the script can observe it: whether it is
`0` or `-0` (the only falsy numbers `JSON.parse` produces) and its rendering by
`Number::toString`. An object is the list of its own properties, each key once. -/
inductive JSValue where
  | undefined : JSValue
  | null : JSValue
  | bool (b : Bool) : JSValue
  | number (isZero : Bool) (text : String) : JSValue
  | string (s : String) : JSValue
  | array (items : List JSValue) : JSValue
  | object (props : List (String × JSValue)) : JSValue

/-- The abstract operation `ToBoolean`. -/
def JSValue.truthy : JSValue → Bool
  | .undefined => false
  | .null => false
  | .bool b => b
  | .number isZero _ => !isZero
  | .string s => s != ""
  | .array _ => true
  | .object _ => true

/-- Whether an object has an own property called `key`. -/
def hasOwn (key : String) (props : List (String × JSValue)) : Bool :=
  props.any (fun kv => kv.1 == key)

/-- The own property `key` of an object, `undefined` when there is none
(nothing called `success` or `message` is inherited from `Object.prototype`). -/
def ownProperty (key : String) : List (String × JSValue) → JSValue
  | [] => .undefined
  | kv :: rest => if kv.1 == key then kv.2 else ownProperty key rest

/-- The property read `data.key` for a key that is neither an array index nor a
property of a built-in prototype: reading from `null` or `undefined` throws a
`TypeError` (message in V8's wording), primitives and arrays give `undefined`. -/
def JSValue.getProperty (data : JSValue) (key : String) : Except JSError JSValue :=
  match data with
  | .undefined =>
      .error ⟨"TypeError", "Cannot read properties of undefined (reading '" ++ key ++ "')"⟩
  | .null =>
      .error ⟨"TypeError", "Cannot read properties of null (reading '" ++ key ++ "')"⟩
  | .object props => .ok (ownProperty key props)
  | _ => .ok .undefined

/-- The error thrown by `OrdinaryToPrimitive` when neither `valueOf` nor
`toString` gives a primitive (message in V8's wording). -/
def toPrimitiveError : JSError := ⟨"TypeError", "Cannot convert object to primitive value"⟩

mutual
/-- The abstract operation `ToString` applied to the primitive of a value, as
the operator `+` does with a string on the left. An object parsed from JSON
inherits `Object.prototype.toString` unless it has an own (not callable)
`toString`, in which case the conversion throws; an array is joined. -/
def JSValue.toJSString : JSValue → Except JSError String
  | .undefined => .ok "undefined"
  | .null => .ok "null"
  | .bool true => .ok "true"
  | .bool false => .ok "false"
  | .number _ text => .ok text
  | .string s => .ok s
  | .array items => joinItems true items
  | .object props => if hasOwn "toString" props then .error toPrimitiveError
      else .ok "[object Object]"
termination_by structural v => v
/-- The method `Array.prototype.join` with the separator `,`, which precedes
every element but the first: `undefined` and `null` elements give the empty
string, the other elements are converted in order. -/
def joinItems : Bool → List JSValue → Except JSError String
  | _, [] => .ok ""
  | first, x :: rest =>
      let item : Except JSError String :=
        match x with
        | .undefined => .ok ""
        | .null => .ok ""
        | _ => JSValue.toJSString x
      match item with
      | .error e => .error e
      | .ok s =>
        match joinItems false rest with
        | .error e => .error e
        | .ok t => .ok ((if first then "" else ",") ++ s ++ t)
termination_by structural _ items => items
end

/-! ## JSON serialisation of the edit request -/

/-- A hexadecimal digit, lower case, as `JSON.stringify` writes it. -/
def hexDigit (n : Nat) : Char :=
  if n < 10 then Char.ofNat (48 + n) else Char.ofNat (87 + n)

/-- One character of `QuoteJSONString`: the quotation mark, the backslash and
the control characters below U+0020 are escaped, everything else is kept. -/
def quoteChar (c : Char) : List Char :=
  if c = '"' then ['\\', '"']
  else if c = '\\' then ['\\', '\\']
  else if c.toNat = 8 then ['\\', 'b']
  else if c.toNat = 9 then ['\\', 't']
  else if c.toNat = 10 then ['\\', 'n']
  else if c.toNat = 12 then ['\\', 'f']
  else if c.toNat = 13 then ['\\', 'r']
  else if c.toNat < 32 then
    ['\\', 'u', '0', '0', hexDigit (c.toNat / 16), hexDigit (c.toNat % 16)]
  else [c]

/-- The abstract operation `QuoteJSONString`. -/
def quoteJSONString (s : String) : String :=
  ⟨'"' :: (s.data.flatMap quoteChar ++ ['"'])⟩

/-- The serialisation of a property value that is a string or `null`. -/
def stringifyValue : Option String → String
  | none => "null"
  | some s => quoteJSONString s

/-- The function `JSON.stringify` on an object literal whose property values
are strings or `null`, the only shape the script serialises. -/
def stringifyObject (fields : List (String × Option String)) : String :=
  "\x7b" ++ ",".intercalate
    (fields.map (fun kv => quoteJSONString kv.1 ++ ":" ++ stringifyValue kv.2)) ++ "\x7d"

/-- The value of a lower case hexadecimal digit. -/
def hexValue (c : Char) : Nat :=
  if c.toNat < 58 then c.toNat - 48 else c.toNat - 87

/-- The character an escape `\x` stands for. -/
def unescapeChar (x : Char) : Char :=
  if x = 'b' then Char.ofNat 8
  else if x = 't' then Char.ofNat 9
  else if x = 'n' then Char.ofNat 10
  else if x = 'f' then Char.ofNat 12
  else if x = 'r' then Char.ofNat 13
  else x

/-- Put a character in front of what has been read. -/
def consRead (c : Char) (r : List Char × List Char) : List Char × List Char := (c :: r.1, r.2)

/-- A reader for the string literals `quoteJSONString` writes, started after the
opening quotation mark: the string denoted, and what follows the closing
quotation mark. It serves to state that serialisation loses nothing. -/
def readQuoted : List Char → Option (List Char × List Char)
  | [] => none
  | c :: rest =>
    if c = '"' then some ([], rest)
    else if c = '\\' then
      match rest with
      | [] => none
      | x :: rest2 =>
        if x = 'u' then
          match rest2 with
          | _ :: _ :: h :: l :: rest3 =>
            (readQuoted rest3).map (consRead (Char.ofNat (16 * hexValue h + hexValue l)))
          | _ => none
        else (readQuoted rest2).map (consRead (unescapeChar x))
    else (readQuoted rest).map (consRead c)

/-! ## Inline Field Sync -/

/-- The arguments of one call of `fetch`. -/
structure FetchCall where
  url : String
  method : String
  credentials : String
  headers : List (String × String)
  body : String
  deriving DecidableEq, Repr

/-- What the script can observe of a response: the value of
`response.headers.get('content-type')`, and how `response.json()` and
`response.text()` settle. -/
structure Response where
  contentType : Option String
  json : Except JSError JSValue
  text : Except JSError String

/-- How the promise returned by `fetch` settles. -/
inductive FetchOutcome where
  | rejected (reason : JSError) : FetchOutcome
  | fulfilled (response : Response) : FetchOutcome

/-- What the change listener does to the outside world. -/
inductive Effect where
  | fetch (call : FetchCall) : Effect
  | parseJson : Effect
  | readText : Effect
  | alert (text : String) : Effect
  deriving DecidableEq, Repr

/-- A settled promise together with the effects performed on the way. -/
abbrev Task (α : Type) := List Effect × Except JSError α

/-- The method `promise.then(f)`: a rejection skips the callback. -/
def Task.andThen {α β : Type} (t : Task α) (f : α → Task β) : Task β :=
  match t.2 with
  | .error e => (t.1, .error e)
  | .ok a => (t.1 ++ (f a).1, (f a).2)

/-- The method `promise.catch(f)`, followed by nothing: the effects of the chain. -/
def Task.catchWith {α : Type} (t : Task α) (f : JSError → List Effect) : List Effect :=
  match t.2 with
  | .error e => t.1 ++ f e
  | .ok _ => t.1

/-- The function `getCsrfToken`. -/
def getCsrfToken (doc : Document) : String :=
  match doc.getElementById "csrf_token" with
  | some tokenInput => tokenInput.value
  | none => ""

/-- The method `String.prototype.includes` on code point lists. -/
def includesChars : List Char → List Char → Bool
  | [], sub => sub.isEmpty
  | c :: rest, sub => sub.isPrefixOf (c :: rest) || includesChars rest sub

/-- The method `s.includes(sub)`. -/
def includes (s sub : String) : Bool := includesChars s.data sub.data

/-- The call of `fetch` made by the change listener of a tracked input. -/
def editRequest (doc : Document) (input : Element) : FetchCall :=
  let detailId := input.getAttribute "data-detail-id"
  let repsNum := input.getAttribute "data-reps"
  let value := input.value
  let csrfToken := getCsrfToken doc
  { url := "/sessions/update_actual_reps"
    method := "POST"
    credentials := "same-origin"
    headers := [("Content-Type", "application/json"), ("X-CSRFToken", csrfToken),
      ("X-Requested-With", "XMLHttpRequest")]
    body := stringifyObject
      [("detail_id", detailId), ("reps_num", repsNum), ("value", some value)] }

/-- The first `then` callback: choose between `response.json()` and
`response.text()` by the declared content type. -/
def onResponse (response : Response) : Task JSValue :=
  let declaredJson :=
    match response.contentType with
    | none => false
    | some contentType => contentType != "" && includes contentType "application/json"
  if declaredJson then ([.parseJson], response.json)
  else
    match response.text with
    | .error e => ([.readText], .error e)
    | .ok text => ([.readText], .error (newError ("Server error: " ++ text)))

/-- The second `then` callback: alert unless `data.success` is truthy. -/
def onData (data : JSValue) : Task Unit :=
  match data.getProperty "success" with
  | .error e => ([], .error e)
  | .ok success =>
    if !success.truthy then
      match data.getProperty "message" with
      | .error e => ([], .error e)
      | .ok message =>
        match message.toJSString with
        | .error e => ([], .error e)
        | .ok rendered => ([.alert ("Gagal update actual reps: " ++ rendered)], .ok ())
    else ([], .ok ())

/-- The `catch` callback. -/
def onError (error : JSError) : List Effect :=
  [.alert ("Terjadi error: " ++ error.toString)]

/-- The promise returned by `fetch`, as a task without effects of its own. -/
def fetchResult : FetchOutcome → Task Response
  | .rejected reason => ([], .error reason)
  | .fulfilled response => ([], .ok response)

/-- The promise `fetch(...).then(...).then(...)`, before the `catch`. -/
def chain (outcome : FetchOutcome) : Task Unit :=
  ((fetchResult outcome).andThen onResponse).andThen onData

/-- The effects of the whole promise chain once `fetch` has settled. -/
def settle (outcome : FetchOutcome) : List Effect :=
  (chain outcome).catchWith onError

/-- One `change` event on a tracked input: the call of `fetch`, then the
effects of the promise chain for the given outcome of that call. -/
def changeListener (doc : Document) (input : Element) (outcome : FetchOutcome) :
    List Effect :=
  .fetch (editRequest doc input) :: settle outcome

/-- The calls of `fetch` among a list of effects. -/
def requestsOf : List Effect → List FetchCall
  | [] => []
  | .fetch call :: rest => call :: requestsOf rest
  | _ :: rest => requestsOf rest

/-- The texts of the alert dialogs among a list of effects, in order. -/
def alertsOf : List Effect → List String
  | [] => []
  | .alert text :: rest => text :: alertsOf rest
  | _ :: rest => alertsOf rest

/-- Whether the response is declared JSON: the content type header is present
and contains `application/json`. -/
def Response.declaredJson (response : Response) : Prop :=
  ∃ contentType, response.contentType = some contentType ∧
    "application/json".data <:+: contentType.data

/-- The outcome the specification calls silent success: the response is
declared JSON and parses to a value whose `success` is truthy. -/
def silentSuccess (outcome : FetchOutcome) : Prop :=
  ∃ response data success, outcome = .fulfilled response ∧ response.declaredJson ∧
    response.json = .ok data ∧ data.getProperty "success" = .ok success ∧
    success.truthy = true

/-- The effects of the second callback followed by the `catch`. -/
def dataEffects (data : JSValue) : List Effect := (onData data).catchWith onError

/-! ## Delete confirmation -/

/-- What one click on an element bound by `initializeConfirmationDialogs` does:
the messages of the `confirm` dialogs shown, and whether
`event.preventDefault()` was called. -/
structure ClickResult where
  confirms : List String
  defaultPrevented : Bool
  deriving DecidableEq, Repr

/-- The click listener installed by `initializeConfirmationDialogs`; `answer` is
what `confirm` returns for a given message. The operator `||` replaces a
missing or empty attribute value by the fixed question. -/
def confirmClick (button : Element) (answer : String → Bool) : ClickResult :=
  let message :=
    match button.getAttribute "data-confirm" with
    | none => "Apakah Anda yakin?"
    | some v => if v = "" then "Apakah Anda yakin?" else v
  if !answer message then
    { confirms := [message], defaultPrevented := true }
  else
    { confirms := [message], defaultPrevented := false }

/-! ## Loading spinner -/

/-- The markup `showLoadingSpinner` puts into the submit button. -/
def spinnerHTML : String :=
  "<span class=\"spinner-border spinner-border-sm\" role=\"status\" aria-hidden=\"true\"></span> Menyimpan..."

/-- ASCII lower case of a character. -/
def asciiLower (c : Char) : Char :=
  if 65 ≤ c.toNat ∧ c.toNat ≤ 90 then Char.ofNat (c.toNat + 32) else c

/-- The selector `button[type="submit"]`: a `button` element whose `type`
attribute is `submit` (HTML compares the values of `type` without regard to
ASCII case). -/
def isSubmitButton (e : Element) : Bool :=
  e.tag == "button" &&
    match e.getAttribute "type" with
    | none => false
    | some t => t.data.map asciiLower == "submit".data

/-- A form: its descendant elements in tree order. -/
structure Form where
  elements : List Element
  deriving DecidableEq, Repr

/-- The method `form.querySelector('button[type="submit"]')`. -/
def Form.submitButton (form : Form) : Option Element :=
  form.elements.find? isSubmitButton

/-- Apply `f` to the first element selected by `p`, in place. -/
def updateFirst (p : Element → Bool) (f : Element → Element) : List Element → List Element
  | [] => []
  | e :: rest => if p e then f e :: rest else e :: updateFirst p f rest

/-- The body of `showLoadingSpinner` for the button found. -/
def showOnButton (submitButton : Element) : Element :=
  let originalText := submitButton.innerHTML
  ({ submitButton with innerHTML := spinnerHTML, disabled := true }).setAttribute
    "data-original-text" originalText

/-- The body of `hideLoadingSpinner` for the button found: the stored text is
put back, and the button enabled, only when the stored text is truthy. -/
def hideOnButton (submitButton : Element) : Element :=
  match submitButton.getAttribute "data-original-text" with
  | none => submitButton
  | some originalText =>
    if originalText != "" then
      { submitButton with innerHTML := originalText, disabled := false }
    else submitButton

/-- The function `showLoadingSpinner`. -/
def showLoadingSpinner (form : Form) : Form :=
  { elements := updateFirst isSubmitButton showOnButton form.elements }

/-- The function `hideLoadingSpinner`. -/
def hideLoadingSpinner (form : Form) : Form :=
  { elements := updateFirst isSubmitButton hideOnButton form.elements }

/-! ## Alert banner -/

/-- A node of the page, identified by `id`; two nodes are the same node exactly
when their identities agree. -/
structure Node where
  id : Nat
  className : String
  innerHTML : String
  deriving DecidableEq, Repr

/-- A pending `setTimeout` callback of `showAlert`: its delay in milliseconds
and the banner its closure holds. -/
structure Timer where
  delay : Nat
  banner : Nat
  deriving DecidableEq, Repr

/-- The page as `showAlert` sees it: the children of the first `.container`
element (`none` when the page has no such element), the pending timers, and
the identity the next created node receives. -/
structure Page where
  container : Option (List Node)
  timers : List Timer
  nextId : Nat
  deriving DecidableEq, Repr

/-- The banner built by `showAlert` from its template literals. -/
def bannerNode (id : Nat) (message type : String) : Node :=
  { id := id
    className := "alert alert-" ++ type ++ " alert-dismissible fade show"
    innerHTML := "\n            " ++ message ++
      "\n            <button type=\"button\" class=\"btn-close\" data-bs-dismiss=\"alert\"></button>\n        " }

/-- The function `showAlert`. -/
def showAlert (page : Page) (message : String) (type : String) : Page :=
  match page.container with
  | none => page
  | some children =>
    let alertDiv := bannerNode page.nextId message type
    { container := some (alertDiv :: children)
      timers := page.timers ++ [{ delay := 5000, banner := alertDiv.id }]
      nextId := page.nextId + 1 }

/-- The call `showAlert(message)`, with the default `type = 'info'`. -/
def showAlertDefault (page : Page) (message : String) : Page :=
  showAlert page message "info"

/-- Whether the banner has a parent: it is among the children of the container. -/
def attached (page : Page) (banner : Nat) : Bool :=
  match page.container with
  | none => false
  | some children => children.any (fun n => n.id == banner)

/-- The timer callback: `if (alertDiv.parentNode) alertDiv.remove()`. -/
def timerCallback (page : Page) (banner : Nat) : Page :=
  if attached page banner then
    { page with container := page.container.map (List.filter (fun n => n.id != banner)) }
  else page

/-- The first pending timer fires: it leaves the queue and its callback runs. -/
def fireTimer (page : Page) : Page :=
  match page.timers with
  | [] => page
  | t :: rest => timerCallback { page with timers := rest } t.banner

/-- The invariant of node identities: every child of the container was created
before `nextId`. -/
def Page.wellFormed (page : Page) : Prop :=
  ∀ children, page.container = some children → ∀ n ∈ children, n.id < page.nextId

/-! ## Regular expressions and the two validators -/

/-- The fragment of regular expressions the script uses, over characters. A
pattern written between `^` and `$` is tested against the whole string. -/
inductive Regex where
  | none : Regex
  | empty : Regex
  | cls (p : Char → Bool) : Regex
  | seq (a b : Regex) : Regex
  | alt (a b : Regex) : Regex
  | star (a : Regex) : Regex

/-- Whether the expression matches the empty string. -/
def Regex.nullable : Regex → Bool
  | .none => false
  | .empty => true
  | .cls _ => false
  | .seq a b => a.nullable && b.nullable
  | .alt a b => a.nullable || b.nullable
  | .star _ => true

/-- The expression for what may follow the character `c`. -/
def Regex.deriv : Regex → Char → Regex
  | .none, _ => .none
  | .empty, _ => .none
  | .cls p, c => if p c then .empty else .none
  | .seq a b, c =>
      if a.nullable then .alt (.seq (a.deriv c) b) (b.deriv c) else .seq (a.deriv c) b
  | .alt a b, c => .alt (a.deriv c) (b.deriv c)
  | .star a, c => .seq (a.deriv c) (.star a)

/-- The method `regex.test(s)` for a pattern anchored at both ends. -/
def Regex.test : Regex → List Char → Bool
  | r, [] => r.nullable
  | r, c :: rest => (r.deriv c).test rest

/-- The character `c` itself. -/
def Regex.char (c : Char) : Regex := .cls (fun x => x == c)

/-- The characters of a literal, in sequence. -/
def Regex.literal : List Char → Regex
  | [] => .empty
  | c :: rest => .seq (.char c) (Regex.literal rest)

/-- The quantifier `+`. -/
def Regex.plus (r : Regex) : Regex := .seq r (.star r)

/-- The quantifier `{n}`. -/
def Regex.times (r : Regex) : Nat → Regex
  | 0 => .empty
  | n + 1 => .seq r (r.times n)

/-- The quantifier `{0,n}`. -/
def Regex.upTo (r : Regex) : Nat → Regex
  | 0 => .empty
  | n + 1 => .alt .empty (.seq r (r.upTo n))

/-- The quantifier `{lo,hi}`. -/
def Regex.range (r : Regex) (lo hi : Nat) : Regex := .seq (r.times lo) (r.upTo (hi - lo))

/-- The class `\s` of ECMAScript: white space and line terminators. -/
def isWhiteSpace (c : Char) : Bool :=
  let n := c.toNat
  n == 0x09 || n == 0x0A || n == 0x0B || n == 0x0C || n == 0x0D || n == 0x20 || n == 0xA0 ||
  n == 0x1680 || (0x2000 ≤ n && n ≤ 0x200A) || n == 0x2028 || n == 0x2029 || n == 0x202F ||
  n == 0x205F || n == 0x3000 || n == 0xFEFF

/-- The class `[^\s@]`. -/
def notSpaceOrAt (c : Char) : Bool := !(isWhiteSpace c || c == '@')

/-- The class `[0-9]`. -/
def isAsciiDigit (c : Char) : Bool := 48 ≤ c.toNat && c.toNat ≤ 57

/-- The pattern `/^[^\s@]+@[^\s@]+\.[^\s@]+$/`. -/
def emailRegex : Regex :=
  .seq (Regex.plus (.cls notSpaceOrAt))
    (.seq (.char '@')
      (.seq (Regex.plus (.cls notSpaceOrAt))
        (.seq (.char '.') (Regex.plus (.cls notSpaceOrAt)))))

/-- The function `isValidEmail`. -/
def isValidEmail (email : String) : Bool := emailRegex.test email.data

/-- The pattern `/^(\+62|62|0)[0-9]{9,13}$/`. -/
def phoneRegex : Regex :=
  .seq (.alt (Regex.literal ['+', '6', '2']) (.alt (Regex.literal ['6', '2']) (Regex.literal ['0'])))
    (Regex.range (.cls isAsciiDigit) 9 13)

/-- The length of the longest prefix of the string that the expression matches,
if it matches any. For `\s+`, whose only quantifier is greedy, this is the
match the engine finds at that position. -/
def Regex.longestPrefix : Regex → List Char → Option Nat
  | r, [] => if r.nullable then some 0 else Option.none
  | r, c :: rest =>
    match (r.deriv c).longestPrefix rest with
    | some n => some (n + 1)
    | Option.none => if r.nullable then some 0 else Option.none

/-- The method `s.replace(r, '')` for a pattern `r` with the flag `g`: from left
to right, a match found at the current position is deleted and the search goes
on behind it; where there is none (or only an empty one) the character is kept.
The first argument bounds the number of steps; the length of the string is enough. -/
def deleteMatches (r : Regex) : Nat → List Char → List Char
  | 0, s => s
  | _ + 1, [] => []
  | fuel + 1, c :: rest =>
    match r.longestPrefix (c :: rest) with
    | some (n + 1) => deleteMatches r fuel (rest.drop n)
    | _ => c :: deleteMatches r fuel rest

/-- The pattern `/\s+/g`. -/
def whiteSpaceRun : Regex := Regex.plus (.cls isWhiteSpace)

/-- The call `phone.replace(/\s+/g, '')`. -/
def removeWhiteSpace (phone : List Char) : List Char :=
  deleteMatches whiteSpaceRun phone.length phone

/-- The function `isValidPhone`. -/
def isValidPhone (phone : String) : Bool := phoneRegex.test (removeWhiteSpace phone.data)

/-- The language of an expression: the strings it matches as a whole. -/
def Regex.Matches : Regex → List Char → Prop
  | .none, _ => False
  | .empty, s => s = []
  | .cls p, s => ∃ c, s = [c] ∧ p c = true
  | .seq a b, s => ∃ t u, s = t ++ u ∧ a.Matches t ∧ b.Matches u
  | .alt a b, s => a.Matches s ∨ b.Matches s
  | .star a, s => ∃ parts : List (List Char), s = parts.flatten ∧ ∀ t ∈ parts, a.Matches t

/-! # Properties -/

/-! ## Inline Field Sync -/

theorem includesChars_iff (s sub : List Char) : includesChars s sub = true ↔ sub <:+: s := by
  induction s with
  | nil => cases sub <;> simp [includesChars]
  | cons c rest ih =>
    simp only [includesChars, Bool.or_eq_true, ih, List.isPrefixOf_iff_prefix, List.infix_cons_iff]

theorem includes_iff (s sub : String) : includes s sub = true ↔ sub.data <:+: s.data :=
  includesChars_iff s.data sub.data

/-- The test of the first `then` callback, as a boolean. -/
theorem onResponse_declared (response : Response) (h : response.declaredJson) :
    onResponse response = ([.parseJson], response.json) := by
  obtain ⟨ct, hct, hinf⟩ := h
  have hne : ct ≠ "" := by
    rintro rfl
    have := List.eq_nil_of_infix_nil hinf
    exact absurd this (by decide)
  have hinc : includes ct "application/json" = true := (includes_iff _ _).2 hinf
  simp [onResponse, hct, hne, hinc]

theorem onResponse_not_declared (response : Response) (h : ¬ response.declaredJson) :
    onResponse response =
      match response.text with
      | .error e => ([.readText], .error e)
      | .ok text => ([.readText], .error (newError ("Server error: " ++ text))) := by
  have hfalse : (match response.contentType with
      | none => false
      | some contentType => contentType != "" && includes contentType "application/json") = false := by
    cases hct : response.contentType with
    | none => rfl
    | some ct =>
      simp only [Bool.and_eq_false_imp, bne_iff_ne, ne_eq]
      intro _
      by_contra hinc
      exact h ⟨ct, hct, (includes_iff _ _).1 (by simpa using hinc)⟩
  simp only [onResponse, hfalse]
  rfl

theorem settle_rejected (reason : JSError) : settle (.rejected reason) = onError reason := rfl

theorem settle_declared (response : Response) (h : response.declaredJson) :
    settle (.fulfilled response) =
      match response.json with
      | .error e => .parseJson :: onError e
      | .ok data => .parseJson :: dataEffects data := by
  simp only [settle, chain, fetchResult, Task.andThen, onResponse_declared response h]
  cases response.json with
  | error e => rfl
  | ok data =>
    simp only [dataEffects, Task.catchWith]
    cases (onData data).2 <;> simp

theorem settle_not_declared (response : Response) (h : ¬ response.declaredJson) :
    settle (.fulfilled response) =
      match response.text with
      | .error e => .readText :: onError e
      | .ok text => .readText :: onError (newError ("Server error: " ++ text)) := by
  simp only [settle, chain, fetchResult, Task.andThen, onResponse_not_declared response h]
  cases response.text <;> rfl

theorem dataEffects_cases (data : JSValue) :
    (∃ success, data.getProperty "success" = .ok success ∧ success.truthy = true ∧
        dataEffects data = []) ∨
    (¬ (∃ success, data.getProperty "success" = .ok success ∧ success.truthy = true) ∧
        ∃ text, dataEffects data = [.alert text]) := by
  cases hs : data.getProperty "success" with
  | error e =>
    right
    refine ⟨by simp, "Terjadi error: " ++ e.toString, ?_⟩
    simp [dataEffects, onData, hs, Task.catchWith, onError]
  | ok success =>
    cases ht : success.truthy with
    | true =>
      left
      exact ⟨success, rfl, ht, by simp [dataEffects, onData, hs, ht, Task.catchWith]⟩
    | false =>
      right
      refine ⟨by simp [ht], ?_⟩
      cases hm : data.getProperty "message" with
      | error e =>
        exact ⟨"Terjadi error: " ++ e.toString,
          by simp [dataEffects, onData, hs, ht, hm, Task.catchWith, onError]⟩
      | ok message =>
        cases hr : message.toJSString with
        | error e =>
          exact ⟨"Terjadi error: " ++ e.toString,
            by simp [dataEffects, onData, hs, ht, hm, hr, Task.catchWith, onError]⟩
        | ok rendered =>
          exact ⟨"Gagal update actual reps: " ++ rendered,
            by simp [dataEffects, onData, hs, ht, hm, hr, Task.catchWith]⟩

theorem settle_cases (outcome : FetchOutcome) :
    (silentSuccess outcome ∧ alertsOf (settle outcome) = [] ∧ requestsOf (settle outcome) = []) ∨
    (¬ silentSuccess outcome ∧ (∃ text, alertsOf (settle outcome) = [text]) ∧
      requestsOf (settle outcome) = []) := by
  cases outcome with
  | rejected reason =>
    right
    refine ⟨?_, ⟨_, rfl⟩, rfl⟩
    rintro ⟨response, data, success, h, _⟩
    cases h
  | fulfilled response =>
    by_cases hd : response.declaredJson
    · rw [settle_declared response hd]
      cases hj : response.json with
      | error e =>
        right
        refine ⟨?_, ⟨_, rfl⟩, rfl⟩
        rintro ⟨response', data, success, h, _, hj', _⟩
        cases h
        rw [hj] at hj'
        cases hj'
      | ok data =>
        rcases dataEffects_cases data with ⟨success, hs, ht, he⟩ | ⟨hn, text, he⟩
        · left
          exact ⟨⟨response, data, success, rfl, hd, hj, hs, ht⟩, by simp [he, alertsOf],
            by simp [he, requestsOf]⟩
        · right
          refine ⟨?_, ⟨text, by simp [he, alertsOf]⟩, by simp [he, requestsOf]⟩
          rintro ⟨response', data', success, h, _, hj', hs, ht⟩
          cases h
          rw [hj] at hj'
          cases hj'
          exact hn ⟨success, hs, ht⟩
    · right
      rw [settle_not_declared response hd]
      refine ⟨?_, ?_, ?_⟩
      · rintro ⟨response', data, success, h, hd', _⟩
        cases h
        exact hd hd'
      · cases response.text <;> exact ⟨_, rfl⟩
      · cases response.text <;> rfl

theorem requestsOf_changeListener (doc : Document) (input : Element) (outcome : FetchOutcome) :
    requestsOf (changeListener doc input outcome) = [editRequest doc input] := by
  have h : requestsOf (settle outcome) = [] := by
    rcases settle_cases outcome with ⟨_, _, h⟩ | ⟨_, _, h⟩ <;> exact h
  simp [changeListener, requestsOf, h]

theorem alertsOf_changeListener (doc : Document) (input : Element) (outcome : FetchOutcome) :
    alertsOf (changeListener doc input outcome) = alertsOf (settle outcome) := rfl

theorem hexValue_hexDigit : ∀ k, k < 16 → hexValue (hexDigit k) = k := by decide

theorem char_eq_of_toNat (c : Char) (n : Nat) (h : c.toNat = n) : c = Char.ofNat n := by
  rw [← h, Char.ofNat_toNat]

theorem readQuoted_escape (x : Char) (tail : List Char) (hx : x ≠ 'u') :
    readQuoted ('\\' :: x :: tail) = (readQuoted tail).map (consRead (unescapeChar x)) := by
  rw [readQuoted.eq_def]
  simp [hx]

theorem readQuoted_plain (c : Char) (tail : List Char) (h1 : c ≠ '"') (h2 : c ≠ '\\') :
    readQuoted (c :: tail) = (readQuoted tail).map (consRead c) := by
  rw [readQuoted.eq_def]
  simp [h1, h2]

theorem readQuoted_hex (a b h l : Char) (tail : List Char) :
    readQuoted ('\\' :: 'u' :: a :: b :: h :: l :: tail) =
      (readQuoted tail).map (consRead (Char.ofNat (16 * hexValue h + hexValue l))) := by
  rw [readQuoted.eq_def]
  simp

theorem readQuoted_quoteChar (c : Char) (tail : List Char) :
    readQuoted (quoteChar c ++ tail) = (readQuoted tail).map (consRead c) := by
  unfold quoteChar
  split
  · next h => subst h; exact readQuoted_escape _ _ (by decide)
  split
  · next h => subst h; exact readQuoted_escape _ _ (by decide)
  split
  · next h => rw [char_eq_of_toNat c 8 h]; exact readQuoted_escape _ _ (by decide)
  split
  · next h => rw [char_eq_of_toNat c 9 h]; exact readQuoted_escape _ _ (by decide)
  split
  · next h => rw [char_eq_of_toNat c 10 h]; exact readQuoted_escape _ _ (by decide)
  split
  · next h => rw [char_eq_of_toNat c 12 h]; exact readQuoted_escape _ _ (by decide)
  split
  · next h => rw [char_eq_of_toNat c 13 h]; exact readQuoted_escape _ _ (by decide)
  split
  · next h =>
    have hhi : c.toNat / 16 < 16 := by omega
    have hlo : c.toNat % 16 < 16 := by omega
    simp only [List.cons_append, List.nil_append]
    rw [readQuoted_hex, hexValue_hexDigit _ hhi, hexValue_hexDigit _ hlo]
    have : 16 * (c.toNat / 16) + c.toNat % 16 = c.toNat := Nat.div_add_mod _ _
    rw [this, Char.ofNat_toNat]
  · next h1 h2 _ _ _ _ _ _ =>
    exact readQuoted_plain c tail h1 h2

theorem readQuoted_flatMap (s tail : List Char) :
    readQuoted (s.flatMap quoteChar ++ '"' :: tail) = some (s, tail) := by
  induction s with
  | nil => rw [List.flatMap_nil, List.nil_append, readQuoted.eq_def]; simp
  | cons c rest ih =>
    rw [List.flatMap_cons, List.append_assoc, readQuoted_quoteChar, ih]
    rfl

theorem quoted_append_inj (s t tail tail2 : List Char)
    (h : s.flatMap quoteChar ++ '"' :: tail = t.flatMap quoteChar ++ '"' :: tail2) :
    s = t ∧ tail = tail2 := by
  have h1 := readQuoted_flatMap s tail
  rw [h, readQuoted_flatMap t tail2] at h1
  simp only [Option.some.injEq, Prod.mk.injEq] at h1
  exact ⟨h1.1.symm, h1.2.symm⟩

theorem stringifyObject_edit_data (d r v : String) :
    (stringifyObject [("detail_id", some d), ("reps_num", some r), ("value", some v)]).data =
      "\x7b\"detail_id\":".data ++ '"' :: (d.data.flatMap quoteChar ++ '"' ::
        (",\"reps_num\":".data ++ '"' :: (r.data.flatMap quoteChar ++ '"' ::
          (",\"value\":".data ++ '"' :: (v.data.flatMap quoteChar ++ '"' :: "\x7d".data))))) := by
  have h1 : quoteJSONString "detail_id" = "\"detail_id\"" := by decide
  have h2 : quoteJSONString "reps_num" = "\"reps_num\"" := by decide
  have h3 : quoteJSONString "value" = "\"value\"" := by decide
  simp only [stringifyObject, List.map, stringifyValue, h1, h2, h3]
  simp [String.intercalate, String.intercalate.go, String.data_append, quoteJSONString]

/-- The body of the edit request determines the three strings. -/
theorem stringifyObject_edit_injective (d r v d2 r2 v2 : String)
    (h : stringifyObject [("detail_id", some d), ("reps_num", some r), ("value", some v)] =
      stringifyObject [("detail_id", some d2), ("reps_num", some r2), ("value", some v2)]) :
    d = d2 ∧ r = r2 ∧ v = v2 := by
  have hdata := congrArg String.data h
  rw [stringifyObject_edit_data, stringifyObject_edit_data] at hdata
  have h1 := List.append_cancel_left hdata
  simp only [List.cons.injEq, true_and] at h1
  obtain ⟨hd, h2⟩ := quoted_append_inj _ _ _ _ h1
  have h3 := List.append_cancel_left h2
  simp only [List.cons.injEq, true_and] at h3
  obtain ⟨hr, h4⟩ := quoted_append_inj _ _ _ _ h3
  have h5 := List.append_cancel_left h4
  simp only [List.cons.injEq, true_and] at h5
  obtain ⟨hv, _⟩ := quoted_append_inj _ _ _ _ h5
  exact ⟨String.ext hd, String.ext hr, String.ext hv⟩

/-- C1. One change event on a tracked input issues exactly one request, a POST
to `/sessions/update_actual_reps` whose body is the JSON serialisation of
`{detail_id: d, reps_num: r, value: v}` with the three strings unchanged (the
body determines them), and whose `X-CSRFToken` header is the value of the
element `csrf_token`, or the empty string when the page has no such element. -/
theorem edit_request_construction (doc : Document) (input : Element) (d r : String)
    (outcome : FetchOutcome)
    (hd : input.getAttribute "data-detail-id" = some d)
    (hr : input.getAttribute "data-reps" = some r) :
    requestsOf (changeListener doc input outcome) = [editRequest doc input] ∧
    (editRequest doc input).url = "/sessions/update_actual_reps" ∧
    (editRequest doc input).method = "POST" ∧
    (editRequest doc input).body =
      stringifyObject [("detail_id", some d), ("reps_num", some r), ("value", some input.value)] ∧
    (editRequest doc input).body =
      "\x7b\"detail_id\":" ++ quoteJSONString d ++ ",\"reps_num\":" ++ quoteJSONString r ++
        ",\"value\":" ++ quoteJSONString input.value ++ "\x7d" ∧
    (∀ (other : Element) (d2 r2 : String),
      other.getAttribute "data-detail-id" = some d2 →
      other.getAttribute "data-reps" = some r2 →
      (editRequest doc other).body = (editRequest doc input).body →
      d2 = d ∧ r2 = r ∧ other.value = input.value) ∧
    (∀ tokenInput, doc.getElementById "csrf_token" = some tokenInput →
      (editRequest doc input).headers.lookup "X-CSRFToken" = some tokenInput.value) ∧
    (doc.getElementById "csrf_token" = none →
      (editRequest doc input).headers.lookup "X-CSRFToken" = some "") := by
  have hbody : (editRequest doc input).body =
      stringifyObject [("detail_id", some d), ("reps_num", some r), ("value", some input.value)] := by
    simp [editRequest, hd, hr]
  refine ⟨requestsOf_changeListener doc input outcome, rfl, rfl, hbody, ?_, ?_, ?_, ?_⟩
  · simp only [editRequest, hd, hr, stringifyObject, List.map, stringifyValue]
    have h1 : quoteJSONString "detail_id" = "\"detail_id\"" := by decide
    have h2 : quoteJSONString "reps_num" = "\"reps_num\"" := by decide
    have h3 : quoteJSONString "value" = "\"value\"" := by decide
    rw [h1, h2, h3]
    apply String.ext
    simp [String.intercalate, String.intercalate.go, String.data_append]
  · intro other d2 r2 hd2 hr2 hsame
    have hother : (editRequest doc other).body =
        stringifyObject
          [("detail_id", some d2), ("reps_num", some r2), ("value", some other.value)] := by
      simp [editRequest, hd2, hr2]
    rw [hbody, hother] at hsame
    exact stringifyObject_edit_injective _ _ _ _ _ _ hsame
  · intro tokenInput htoken
    simp [editRequest, List.lookup, getCsrfToken, htoken]
  · intro htoken
    simp [editRequest, List.lookup, getCsrfToken, htoken]

/-- C1 at a page with a token and an input whose value needs escaping. -/
theorem edit_request_construction_witness :
    requestsOf (changeListener ⟨[⟨"input", [("id", "csrf_token")], "tok", "", false⟩]⟩
        ⟨"input", [("data-detail-id", "7"), ("data-reps", "2")], " 1\"2 ", "", false⟩
        (.rejected ⟨"TypeError", "Failed to fetch"⟩)) =
      [{ url := "/sessions/update_actual_reps", method := "POST", credentials := "same-origin",
         headers := [("Content-Type", "application/json"), ("X-CSRFToken", "tok"),
           ("X-Requested-With", "XMLHttpRequest")],
         body := "\x7b\"detail_id\":\"7\",\"reps_num\":\"2\",\"value\":\" 1\\\"2 \"\x7d" }] :=
  (edit_request_construction ⟨[⟨"input", [("id", "csrf_token")], "tok", "", false⟩]⟩
    ⟨"input", [("data-detail-id", "7"), ("data-reps", "2")], " 1\"2 ", "", false⟩ "7" "2"
    (.rejected ⟨"TypeError", "Failed to fetch"⟩) (by decide) (by decide)).1.trans (by decide)

/-- C2. Whatever the outcome of the request, the change event sends exactly one
request and shows no alert when the response is declared JSON and parses to a
value whose `success` is truthy, and exactly one alert in every other outcome;
never two. -/
theorem dialog_count (doc : Document) (input : Element) (outcome : FetchOutcome) :
    (requestsOf (changeListener doc input outcome)).length = 1 ∧
    (silentSuccess outcome → alertsOf (changeListener doc input outcome) = []) ∧
    (¬ silentSuccess outcome → (alertsOf (changeListener doc input outcome)).length = 1) ∧
    (alertsOf (changeListener doc input outcome)).length ≤ 1 := by
  rw [requestsOf_changeListener, alertsOf_changeListener]
  rcases settle_cases outcome with ⟨hs, ha, _⟩ | ⟨hs, ⟨text, ha⟩, _⟩
  · exact ⟨rfl, fun _ => ha, fun h => absurd hs h, by simp [ha]⟩
  · exact ⟨rfl, fun h => absurd h hs, fun _ => by simp [ha], by simp [ha]⟩

/-- C2 at the response `{"success": true}`: no alert. -/
theorem dialog_count_witness :
    alertsOf (changeListener ⟨[]⟩
      ⟨"input", [("data-detail-id", "7"), ("data-reps", "2")], "12", "", false⟩
      (.fulfilled ⟨some "application/json", .ok (.object [("success", .bool true)]),
        .ok "\x7b\"success\": true\x7d"⟩)) = [] :=
  (dialog_count ⟨[]⟩ ⟨"input", [("data-detail-id", "7"), ("data-reps", "2")], "12", "", false⟩
    (.fulfilled ⟨some "application/json", .ok (.object [("success", .bool true)]),
      .ok "\x7b\"success\": true\x7d"⟩)).2.1
    ⟨_, _, _, rfl, ⟨_, rfl, by decide⟩, rfl, rfl, rfl⟩

/-- C3. A response declared JSON that parses to an object with `success` false
and `message` the string `X` shows one alert, with text
`Gagal update actual reps: ` followed by `X`, and the promise before the
`catch` is fulfilled, so the `catch` callback does not run. -/
theorem server_reported_failure (doc : Document) (input : Element) (response : Response)
    (props : List (String × JSValue)) (X : String)
    (hjson : response.declaredJson) (hparse : response.json = .ok (.object props))
    (hsuccess : ownProperty "success" props = .bool false)
    (hmessage : ownProperty "message" props = .string X) :
    changeListener doc input (.fulfilled response) =
      [.fetch (editRequest doc input), .parseJson,
        .alert ("Gagal update actual reps: " ++ X)] ∧
    (chain (.fulfilled response)).2 = .ok () := by
  have hdata : onData (.object props) =
      ([.alert ("Gagal update actual reps: " ++ X)], .ok ()) := by
    simp [onData, JSValue.getProperty, hsuccess, hmessage, JSValue.truthy, JSValue.toJSString]
  constructor
  · simp [changeListener, settle_declared response hjson, hparse, dataEffects, hdata,
      Task.catchWith]
  · simp [chain, fetchResult, Task.andThen, onResponse_declared response hjson, hparse, hdata]

/-- C3 at the response `{"success": false, "message": "X"}`. -/
theorem server_reported_failure_witness :
    alertsOf (changeListener ⟨[]⟩
      ⟨"input", [("data-detail-id", "7"), ("data-reps", "2")], "12", "", false⟩
      (.fulfilled ⟨some "application/json",
        .ok (.object [("success", .bool false), ("message", .string "X")]), .ok ""⟩)) =
      ["Gagal update actual reps: X"] :=
  (congrArg alertsOf (server_reported_failure ⟨[]⟩
    ⟨"input", [("data-detail-id", "7"), ("data-reps", "2")], "12", "", false⟩
    ⟨some "application/json",
      .ok (.object [("success", .bool false), ("message", .string "X")]), .ok ""⟩
    [("success", .bool false), ("message", .string "X")] "X"
    ⟨_, rfl, by decide⟩ rfl rfl rfl).1).trans (by decide)

/-- C4. When the content type header is absent or does not contain
`application/json`, and the body text is `T`, the body is never parsed as JSON,
the promise before the `catch` is rejected with an error whose message is
`Server error: ` followed by `T`, and the one alert shown is
`Terjadi error: Error: Server error: ` followed by `T`, which contains
`Server error: ` immediately followed by all of `T`. -/
theorem non_json_response (doc : Document) (input : Element) (response : Response)
    (T : String) (hct : ¬ response.declaredJson) (htext : response.text = .ok T) :
    Effect.parseJson ∉ changeListener doc input (.fulfilled response) ∧
    (chain (.fulfilled response)).2 = .error (newError ("Server error: " ++ T)) ∧
    alertsOf (changeListener doc input (.fulfilled response)) =
      ["Terjadi error: Error: Server error: " ++ T] ∧
    ∀ text ∈ alertsOf (changeListener doc input (.fulfilled response)),
      ("Server error: " ++ T).data <:+: text.data := by
  have hsettle : settle (.fulfilled response) =
      [.readText, .alert ("Terjadi error: Error: Server error: " ++ T)] := by
    rw [settle_not_declared response hct, htext]
    simp only [onError, newError, JSError.toString]
    have h1 : ("Error" : String) ≠ "" := by decide
    have h2 : "Server error: " ++ T ≠ "" := by
      intro h
      have := congrArg String.length h
      simp [String.length_append] at this
      exact absurd this.1 (by decide)
    simp only [h1, h2, if_false]
    rfl
  have halerts : alertsOf (changeListener doc input (.fulfilled response)) =
      ["Terjadi error: Error: Server error: " ++ T] := by
    rw [alertsOf_changeListener, hsettle]
    rfl
  refine ⟨?_, ?_, halerts, ?_⟩
  · simp [changeListener, hsettle]
  · simp [chain, fetchResult, Task.andThen, onResponse_not_declared response hct, htext]
  · intro text htext'
    rw [halerts, List.mem_singleton] at htext'
    subst htext'
    refine ⟨"Terjadi error: Error: ".data, [], ?_⟩
    simp [String.data_append]

/-- C4 at a response of type `text/html` with body `Internal Server Error`. -/
theorem non_json_response_witness :
    alertsOf (changeListener ⟨[]⟩
      ⟨"input", [("data-detail-id", "7"), ("data-reps", "2")], "12", "", false⟩
      (.fulfilled ⟨some "text/html", .error ⟨"SyntaxError", "Unexpected token"⟩,
        .ok "Internal Server Error"⟩)) =
      ["Terjadi error: Error: Server error: Internal Server Error"] :=
  (non_json_response ⟨[]⟩
    ⟨"input", [("data-detail-id", "7"), ("data-reps", "2")], "12", "", false⟩
    ⟨some "text/html", .error ⟨"SyntaxError", "Unexpected token"⟩, .ok "Internal Server Error"⟩
    "Internal Server Error"
    (by
      rintro ⟨ct, hct, hinf⟩
      cases hct
      exact absurd hinf (by decide))
    rfl).2.2.1

/-- C5, refuted as stated: for the response `{"success": false}`, which carries
no `message`, the alert text is the prefix followed by the rendering of
`undefined`, so no default text other than that rendering follows the prefix. -/
theorem default_message_counterexample :
    ¬ ∃ fallback : String, JSValue.toJSString .undefined ≠ .ok fallback ∧
      alertsOf (changeListener ⟨[]⟩
        ⟨"input", [("data-detail-id", "7"), ("data-reps", "2")], "12", "", false⟩
        (.fulfilled ⟨some "application/json", .ok (.object [("success", .bool false)]),
          .ok ""⟩)) = ["Gagal update actual reps: " ++ fallback] := by
  rintro ⟨fallback, hne, halert⟩
  have hcode : alertsOf (changeListener ⟨[]⟩
        ⟨"input", [("data-detail-id", "7"), ("data-reps", "2")], "12", "", false⟩
        (.fulfilled ⟨some "application/json", .ok (.object [("success", .bool false)]),
          .ok ""⟩)) = ["Gagal update actual reps: " ++ "undefined"] := by decide
  rw [hcode, List.cons.injEq] at halert
  have hdata := congrArg String.data halert.1
  simp only [String.data_append, List.append_cancel_left_eq] at hdata
  apply hne
  rw [← String.ext hdata]
  rfl

theorem ownProperty_of_not_hasOwn (key : String) (props : List (String × JSValue))
    (h : hasOwn key props = false) : ownProperty key props = .undefined := by
  induction props with
  | nil => rfl
  | cons kv rest ih =>
    simp only [hasOwn, List.any_cons, Bool.or_eq_false_iff] at h
    simp only [ownProperty, h.1]
    exact ih h.2

/-- C5, amended: a response declared JSON that parses to `data` with a falsy
`success` always has a `message` value (possibly `undefined`) and shows one
alert. When the conversion of that value to a string succeeds, the text is the
prefix followed by the conversion: `X` itself when `message` is the string
`X`, and `undefined` when `data` has no `message` (an object without that
property, an array or a primitive). When the conversion throws, the text is
`Terjadi error: ` followed by the string form of the error. No default text
is involved. -/
theorem failure_message_rendering (doc : Document) (input : Element) (response : Response)
    (data success : JSValue)
    (hjson : response.declaredJson) (hparse : response.json = .ok data)
    (hsuccess : data.getProperty "success" = .ok success) (hfalsy : success.truthy = false) :
    (∃ message, data.getProperty "message" = .ok message) ∧
    (∀ message rendered, data.getProperty "message" = .ok message →
      message.toJSString = .ok rendered →
      alertsOf (changeListener doc input (.fulfilled response)) =
        ["Gagal update actual reps: " ++ rendered]) ∧
    (∀ message error, data.getProperty "message" = .ok message →
      message.toJSString = .error error →
      alertsOf (changeListener doc input (.fulfilled response)) =
        ["Terjadi error: " ++ error.toString]) ∧
    (∀ X, data.getProperty "message" = .ok (.string X) →
      alertsOf (changeListener doc input (.fulfilled response)) =
        ["Gagal update actual reps: " ++ X]) ∧
    ((∀ props, data = .object props → hasOwn "message" props = false) →
      alertsOf (changeListener doc input (.fulfilled response)) =
        ["Gagal update actual reps: undefined"]) := by
  have key : ∀ m rendered, data.getProperty "message" = .ok m →
      m.toJSString = .ok rendered →
      alertsOf (changeListener doc input (.fulfilled response)) =
        ["Gagal update actual reps: " ++ rendered] := by
    intro m rendered hm hr
    simp [changeListener, settle_declared response hjson, hparse, dataEffects, onData,
      hsuccess, hfalsy, hm, hr, Task.catchWith, alertsOf]
  refine ⟨?_, key, ?_, fun X hX => key _ X hX (by simp [JSValue.toJSString]), ?_⟩
  · cases data <;> simp [JSValue.getProperty] at hsuccess ⊢
  · intro m e hm he
    simp [changeListener, settle_declared response hjson, hparse, dataEffects, onData,
      hsuccess, hfalsy, hm, he, Task.catchWith, alertsOf, onError]
  · intro hno
    have hu : data.getProperty "message" = .ok .undefined := by
      cases data with
      | undefined => simp [JSValue.getProperty] at hsuccess
      | null => simp [JSValue.getProperty] at hsuccess
      | object props =>
        simp only [JSValue.getProperty,
          ownProperty_of_not_hasOwn "message" props (hno props rfl)]
      | bool b => rfl
      | number z t => rfl
      | string s => rfl
      | array items => rfl
    exact key _ "undefined" hu (by simp [JSValue.toJSString])

/-- C5 amended, at the responses `{"success": false}` and
`{"success": false, "message": {"toString": 1}}`. -/
theorem failure_message_rendering_witness :
    alertsOf (changeListener ⟨[]⟩
      ⟨"input", [("data-detail-id", "7"), ("data-reps", "2")], "12", "", false⟩
      (.fulfilled ⟨some "application/json", .ok (.object [("success", .bool false)]),
        .ok ""⟩)) = ["Gagal update actual reps: undefined"] ∧
    alertsOf (changeListener ⟨[]⟩
      ⟨"input", [("data-detail-id", "7"), ("data-reps", "2")], "12", "", false⟩
      (.fulfilled ⟨some "application/json",
        .ok (.object [("success", .bool false),
          ("message", .object [("toString", .number false "1")])]),
        .ok ""⟩)) =
      ["Terjadi error: TypeError: Cannot convert object to primitive value"] :=
  ⟨(failure_message_rendering ⟨[]⟩
      ⟨"input", [("data-detail-id", "7"), ("data-reps", "2")], "12", "", false⟩
      ⟨some "application/json", .ok (.object [("success", .bool false)]), .ok ""⟩
      (.object [("success", .bool false)]) (.bool false)
      ⟨_, rfl, by decide⟩ rfl rfl rfl).2.2.2.2
      (by
        intro props h
        cases h
        rfl),
   ((failure_message_rendering ⟨[]⟩
      ⟨"input", [("data-detail-id", "7"), ("data-reps", "2")], "12", "", false⟩
      ⟨some "application/json",
        .ok (.object [("success", .bool false),
          ("message", .object [("toString", .number false "1")])]), .ok ""⟩
      (.object [("success", .bool false),
        ("message", .object [("toString", .number false "1")])]) (.bool false)
      ⟨_, rfl, by decide⟩ rfl rfl rfl).2.2.1
      (.object [("toString", .number false "1")]) toPrimitiveError rfl rfl).trans (by decide)⟩

/-! ## Delete confirmation -/

/-- C6. A click on an element carrying `data-confirm` shows exactly one
confirmation dialog, whose message is the attribute value when that is not
empty and `Apakah Anda yakin?` when it is, and the default action is prevented
exactly when the user declines. -/
theorem confirmation_gating (button : Element) (v : String) (answer : String → Bool)
    (h : button.getAttribute "data-confirm" = some v) :
    (confirmClick button answer).confirms = [if v = "" then "Apakah Anda yakin?" else v] ∧
    ((confirmClick button answer).defaultPrevented = true ↔
      answer (if v = "" then "Apakah Anda yakin?" else v) = false) := by
  simp only [confirmClick, h]
  cases ha : answer (if v = "" then "Apakah Anda yakin?" else v) <;> simp

/-- C6 at a delete link with a message, declined. -/
theorem confirmation_gating_witness :
    (confirmClick ⟨"a", [("href", "/members/3/delete"), ("data-confirm", "Hapus member?")],
        "", "Hapus", false⟩ (fun _ => false)).confirms = ["Hapus member?"] ∧
    (confirmClick ⟨"a", [("href", "/members/3/delete"), ("data-confirm", "Hapus member?")],
        "", "Hapus", false⟩ (fun _ => false)).defaultPrevented = true := by
  have h := confirmation_gating
    ⟨"a", [("href", "/members/3/delete"), ("data-confirm", "Hapus member?")], "", "Hapus", false⟩
    "Hapus member?" (fun _ => false) (by decide)
  exact ⟨h.1.trans (by decide), h.2.2 rfl⟩

/-! ## Loading spinner -/

theorem find_setAttr_same (name v : String) (attrs : List (String × String)) :
    (setAttr name v attrs).find? (fun kv => kv.1 == name) = some (name, v) := by
  induction attrs with
  | nil => simp [setAttr]
  | cons kv rest ih =>
    by_cases hk : kv.1 = name
    · simp [setAttr, hk]
    · simp [setAttr, hk, ih]

theorem find_setAttr_other (name v other : String) (hne : other ≠ name)
    (attrs : List (String × String)) :
    (setAttr name v attrs).find? (fun kv => kv.1 == other) =
      attrs.find? (fun kv => kv.1 == other) := by
  induction attrs with
  | nil => simp [setAttr, Ne.symm hne]
  | cons kv rest ih =>
    by_cases hk : kv.1 = name
    · have hko : ¬ kv.1 = other := fun h => hne (h ▸ hk)
      simp [setAttr, hk, hko, Ne.symm hne]
    · by_cases hko : kv.1 = other
      · simp [setAttr, hk, hko]
        simp [← hko, hk]
      · simp [setAttr, hk, hko, ih]

theorem isSubmitButton_showOnButton (e : Element) :
    isSubmitButton (showOnButton e) = isSubmitButton e := by
  simp only [isSubmitButton, showOnButton, Element.setAttribute, Element.getAttribute,
    find_setAttr_other "data-original-text" e.innerHTML "type" (by decide)]

theorem showOnButton_original (e : Element) :
    (showOnButton e).getAttribute "data-original-text" = some e.innerHTML := by
  simp [showOnButton, Element.setAttribute, Element.getAttribute, find_setAttr_same]

theorem find_updateFirst (p : Element → Bool) (f : Element → Element)
    (hp : ∀ e, p (f e) = p e) (l : List Element) :
    (updateFirst p f l).find? p = (l.find? p).map f := by
  induction l with
  | nil => rfl
  | cons e rest ih =>
    by_cases he : p e = true
    · simp [updateFirst, he, hp]
    · simp [updateFirst, he, ih]

/-- The round trip for a button whose content is not empty. -/
theorem spinner_round_trip_of_nonempty (form : Form) (button : Element)
    (hb : form.submitButton = some button) (hne : button.innerHTML ≠ "") :
    ∃ restored, (hideLoadingSpinner (showLoadingSpinner form)).submitButton = some restored ∧
      restored.innerHTML = button.innerHTML ∧ restored.disabled = false := by
  have hshow : (showLoadingSpinner form).submitButton = some (showOnButton button) := by
    simp only [Form.submitButton, showLoadingSpinner] at hb ⊢
    rw [find_updateFirst _ _ isSubmitButton_showOnButton, hb]
    rfl
  have hhide : ∀ e, isSubmitButton (hideOnButton e) = isSubmitButton e := by
    intro e
    simp only [hideOnButton]
    split
    · rfl
    · split <;> rfl
  refine ⟨hideOnButton (showOnButton button), ?_, ?_, ?_⟩
  · simp only [Form.submitButton, hideLoadingSpinner] at hshow ⊢
    rw [find_updateFirst _ _ hhide, hshow]
    rfl
  · simp [hideOnButton, showOnButton_original, hne]
  · simp [hideOnButton, showOnButton_original, hne]

/-- C9 at a submit button without content: after `showLoadingSpinner` and
`hideLoadingSpinner` the button still shows the spinner and is still disabled,
because the stored original text, the empty string, is falsy. -/
theorem spinner_round_trip_empty_button :
    (Form.mk [⟨"button", [("type", "submit"), ("class", "btn-icon")], "", "", false⟩]).submitButton
      = some ⟨"button", [("type", "submit"), ("class", "btn-icon")], "", "", false⟩ ∧
    (hideLoadingSpinner (showLoadingSpinner
      (Form.mk [⟨"button", [("type", "submit"), ("class", "btn-icon")], "", "", false⟩]))).submitButton
      = some ⟨"button",
          [("type", "submit"), ("class", "btn-icon"), ("data-original-text", "")], "",
          spinnerHTML, true⟩ := by
  decide

/-! ## Alert banner -/

theorem attached_filter (children : List Node) (banner : Nat) :
    (children.filter (fun n => n.id != banner)).any (fun n => n.id == banner) = false := by
  simp [List.any_eq_false, List.mem_filter]

/-- C10. With a container, `showAlert` puts one new banner before the
children, which stay as they were, and schedules one timer of 5000 ms for it;
without a container it changes nothing. When that timer fires, in whatever
state the page then is, the banner is removed if it is attached (the other
children keep their order) and the page is unchanged if it is not; afterwards
the banner is not attached. -/
theorem alert_banner_auto_dismiss (page : Page) (message type : String)
    (hwf : page.wellFormed) :
    (∀ children, page.container = some children →
      (showAlert page message type).container =
        some (bannerNode page.nextId message type :: children) ∧
      (∀ n ∈ children, n.id ≠ (bannerNode page.nextId message type).id) ∧
      (showAlert page message type).timers =
        page.timers ++ [{ delay := 5000, banner := (bannerNode page.nextId message type).id }]) ∧
    (page.container = none → showAlert page message type = page) ∧
    (∀ (later : Page) (rest : List Timer),
      later.timers = { delay := 5000, banner := (bannerNode page.nextId message type).id } :: rest →
      (attached later page.nextId = true →
        fireTimer later =
          { later with
            timers := rest
            container := later.container.map (List.filter (fun n => n.id != page.nextId)) }) ∧
      (attached later page.nextId = false → fireTimer later = { later with timers := rest }) ∧
      attached (fireTimer later) page.nextId = false) := by
  refine ⟨?_, ?_, ?_⟩
  · intro children hc
    refine ⟨by simp [showAlert, hc], ?_, by simp [showAlert, hc, bannerNode]⟩
    intro n hn
    exact Nat.ne_of_lt (hwf children hc n hn)
  · intro hc
    simp [showAlert, hc]
  · intro later rest ht
    have hatt : attached { later with timers := rest } page.nextId = attached later page.nextId :=
      rfl
    refine ⟨?_, ?_, ?_⟩
    · intro ha
      simp [fireTimer, ht, timerCallback, hatt, ha, bannerNode]
    · intro ha
      simp [fireTimer, ht, timerCallback, hatt, ha, bannerNode]
    · cases ha : attached later page.nextId with
      | true =>
        simp only [fireTimer, ht, timerCallback, hatt, ha, bannerNode, if_true]
        cases hc : later.container with
        | none => rfl
        | some children => simp [attached, attached_filter]
      | false =>
        simp only [fireTimer, ht, timerCallback, hatt, ha, bannerNode]
        simpa using ha

/-- C10 on a page whose container holds one node. -/
theorem alert_banner_auto_dismiss_witness :
    fireTimer (showAlert ⟨some [⟨0, "row", "<h1>Members</h1>"⟩], [], 1⟩ "Tersimpan" "success") =
      ⟨some [⟨0, "row", "<h1>Members</h1>"⟩], [], 2⟩ := by
  have h := (alert_banner_auto_dismiss ⟨some [⟨0, "row", "<h1>Members</h1>"⟩], [], 1⟩
    "Tersimpan" "success" (by
      intro children hc n hn
      cases hc
      simp only [List.mem_singleton] at hn
      subst hn
      decide)).2.2
    (showAlert ⟨some [⟨0, "row", "<h1>Members</h1>"⟩], [], 1⟩ "Tersimpan" "success") []
    rfl
  exact (h.1 (by decide)).trans (by decide)

/-! ## Regular expressions -/

theorem Regex.nullable_iff (r : Regex) : r.nullable = true ↔ r.Matches [] := by
  induction r with
  | none => simp [Regex.nullable, Regex.Matches]
  | empty => simp [Regex.nullable, Regex.Matches]
  | cls p => simp [Regex.nullable, Regex.Matches]
  | seq a b iha ihb =>
    simp only [Regex.nullable, Regex.Matches, Bool.and_eq_true, iha, ihb]
    constructor
    · rintro ⟨ha, hb⟩
      exact ⟨[], [], rfl, ha, hb⟩
    · rintro ⟨t, u, h, ha, hb⟩
      have ht : t = [] := (List.append_eq_nil.1 h.symm).1
      have hu : u = [] := (List.append_eq_nil.1 h.symm).2
      subst ht hu
      exact ⟨ha, hb⟩
  | alt a b iha ihb => simp only [Regex.nullable, Regex.Matches, Bool.or_eq_true, iha, ihb]
  | star a _ =>
    simp only [Regex.nullable, Regex.Matches, true_iff]
    exact ⟨[], rfl, by simp⟩

theorem Regex.seq_cons_iff (a b : Regex) (c : Char) (s : List Char) :
    (Regex.seq a b).Matches (c :: s) ↔
      (∃ t u, s = t ++ u ∧ a.Matches (c :: t) ∧ b.Matches u) ∨
      (a.Matches [] ∧ b.Matches (c :: s)) := by
  simp only [Regex.Matches]
  constructor
  · rintro ⟨t, u, h, ha, hb⟩
    cases t with
    | nil =>
      right
      simp only [List.nil_append] at h
      subst h
      exact ⟨ha, hb⟩
    | cons x t =>
      left
      simp only [List.cons_append, List.cons.injEq] at h
      obtain ⟨rfl, rfl⟩ := h
      exact ⟨t, u, rfl, ha, hb⟩
  · rintro (⟨t, u, rfl, ha, hb⟩ | ⟨ha, hb⟩)
    · exact ⟨c :: t, u, rfl, ha, hb⟩
    · exact ⟨[], c :: s, rfl, ha, hb⟩

theorem Regex.star_cons_iff (a : Regex) (c : Char) (s : List Char) :
    (Regex.star a).Matches (c :: s) ↔
      ∃ t u, s = t ++ u ∧ a.Matches (c :: t) ∧ (Regex.star a).Matches u := by
  simp only [Regex.Matches]
  constructor
  · rintro ⟨parts, h, hall⟩
    induction parts with
    | nil => simp at h
    | cons p ps ih =>
      cases p with
      | nil =>
        exact ih (by simpa using h) (fun t ht => hall t (List.mem_cons_of_mem _ ht))
      | cons x t =>
        simp only [List.flatten_cons, List.cons_append, List.cons.injEq] at h
        obtain ⟨rfl, rfl⟩ := h
        exact ⟨t, ps.flatten, rfl, hall _ (List.mem_cons_self _ _), ps, rfl,
          fun t ht => hall t (List.mem_cons_of_mem _ ht)⟩
  · rintro ⟨t, u, rfl, ha, parts, rfl, hall⟩
    refine ⟨(c :: t) :: parts, by simp, ?_⟩
    intro x hx
    rcases List.mem_cons.1 hx with rfl | hx
    · exact ha
    · exact hall x hx

theorem Regex.deriv_iff (r : Regex) (c : Char) (s : List Char) :
    (r.deriv c).Matches s ↔ r.Matches (c :: s) := by
  induction r generalizing s with
  | none => simp [Regex.deriv, Regex.Matches]
  | empty => simp [Regex.deriv, Regex.Matches]
  | cls p =>
    by_cases hp : p c = true
    · simp only [Regex.deriv, hp, Regex.Matches, if_true, List.cons.injEq]
      constructor
      · rintro rfl
        exact ⟨c, ⟨rfl, rfl⟩, hp⟩
      · rintro ⟨x, ⟨_, hs⟩, _⟩
        exact hs
    · simp only [Regex.deriv, hp, Regex.Matches, if_false, false_iff]
      rintro ⟨x, hx, hpx⟩
      simp only [List.cons.injEq] at hx
      exact hp (hx.1 ▸ hpx)
  | seq a b iha ihb =>
    rw [Regex.seq_cons_iff]
    by_cases hn : a.nullable = true
    · simp only [Regex.deriv, hn, if_true, Regex.Matches, iha, ihb,
        (Regex.nullable_iff a).1 hn, true_and]
    · have hn' : ¬ a.Matches [] := fun h => hn ((Regex.nullable_iff a).2 h)
      simp only [Regex.deriv, hn, Regex.Matches, iha, hn', false_and, or_false]
  | alt a b iha ihb => simp only [Regex.deriv, Regex.Matches, iha, ihb]
  | star a iha =>
    rw [Regex.star_cons_iff]
    simp only [Regex.deriv, Regex.Matches, iha]

/-- The matcher decides the language of the expression. -/
theorem Regex.test_iff (r : Regex) (s : List Char) : r.test s = true ↔ r.Matches s := by
  induction s generalizing r with
  | nil => exact Regex.nullable_iff r
  | cons c rest ih => rw [Regex.test, ih, Regex.deriv_iff]

theorem Regex.matches_char (c : Char) (s : List Char) : (Regex.char c).Matches s ↔ s = [c] := by
  simp only [Regex.char, Regex.Matches, beq_iff_eq]
  constructor
  · rintro ⟨x, rfl, rfl⟩
    rfl
  · rintro rfl
    exact ⟨c, rfl, rfl⟩

theorem Regex.matches_literal (l s : List Char) : (Regex.literal l).Matches s ↔ s = l := by
  induction l generalizing s with
  | nil => simp [Regex.literal, Regex.Matches]
  | cons c rest ih =>
    rw [Regex.literal, Regex.Matches]
    simp only [Regex.matches_char, ih]
    constructor
    · rintro ⟨t, u, rfl, rfl, rfl⟩
      rfl
    · rintro rfl
      exact ⟨[c], rest, rfl, rfl, rfl⟩

theorem Regex.matches_cls_star (p : Char → Bool) (s : List Char) :
    (Regex.star (.cls p)).Matches s ↔ ∀ c ∈ s, p c = true := by
  simp only [Regex.Matches]
  constructor
  · rintro ⟨parts, rfl, hall⟩ c hc
    obtain ⟨t, ht, hct⟩ := List.mem_flatten.1 hc
    obtain ⟨x, rfl, hx⟩ := hall t ht
    rw [List.mem_singleton] at hct
    exact hct ▸ hx
  · intro h
    refine ⟨s.map (fun c => [c]), ?_, ?_⟩
    · clear h
      induction s with
      | nil => rfl
      | cons c rest ih => simp [← ih]
    · intro t ht
      obtain ⟨c, hc, rfl⟩ := List.mem_map.1 ht
      exact ⟨c, rfl, h c hc⟩

theorem Regex.matches_cls_plus (p : Char → Bool) (s : List Char) :
    (Regex.plus (.cls p)).Matches s ↔ s ≠ [] ∧ ∀ c ∈ s, p c = true := by
  unfold Regex.plus
  rw [Regex.Matches]
  simp only [Regex.matches_cls_star]
  constructor
  · rintro ⟨t, u, rfl, ⟨c, rfl, hc⟩, hu⟩
    refine ⟨by simp, ?_⟩
    intro x hx
    rcases List.mem_cons.1 hx with rfl | hx
    · exact hc
    · exact hu x hx
  · rintro ⟨hne, hall⟩
    cases s with
    | nil => exact absurd rfl hne
    | cons c rest =>
      exact ⟨[c], rest, rfl, ⟨c, rfl, hall c (List.mem_cons_self _ _)⟩,
        fun x hx => hall x (List.mem_cons_of_mem _ hx)⟩

theorem Regex.matches_cls_times (p : Char → Bool) (n : Nat) (s : List Char) :
    ((Regex.cls p).times n).Matches s ↔ s.length = n ∧ ∀ c ∈ s, p c = true := by
  induction n generalizing s with
  | zero =>
    simp only [Regex.times, Regex.Matches, List.length_eq_zero]
    constructor
    · rintro rfl
      exact ⟨rfl, by simp⟩
    · exact fun h => h.1
  | succ n ih =>
    simp only [Regex.times]
    rw [Regex.Matches]
    simp only [ih]
    constructor
    · rintro ⟨t, u, rfl, ⟨c, rfl, hc⟩, hlen, hu⟩
      refine ⟨by simp [hlen], ?_⟩
      intro x hx
      rcases List.mem_cons.1 hx with rfl | hx
      · exact hc
      · exact hu x hx
    · rintro ⟨hlen, hall⟩
      cases s with
      | nil => simp at hlen
      | cons c rest =>
        exact ⟨[c], rest, rfl, ⟨c, rfl, hall c (List.mem_cons_self _ _)⟩,
          by simpa using hlen, fun x hx => hall x (List.mem_cons_of_mem _ hx)⟩

theorem Regex.matches_cls_upTo (p : Char → Bool) (n : Nat) (s : List Char) :
    ((Regex.cls p).upTo n).Matches s ↔ s.length ≤ n ∧ ∀ c ∈ s, p c = true := by
  induction n generalizing s with
  | zero =>
    simp only [Regex.upTo, Regex.Matches, Nat.le_zero, List.length_eq_zero]
    constructor
    · rintro rfl
      exact ⟨rfl, by simp⟩
    · exact fun h => h.1
  | succ n ih =>
    simp only [Regex.upTo]
    rw [Regex.Matches, Regex.Matches, Regex.Matches]
    simp only [ih]
    constructor
    · rintro (rfl | ⟨t, u, rfl, ⟨c, rfl, hc⟩, hlen, hu⟩)
      · exact ⟨by simp, by simp⟩
      · refine ⟨by simpa using hlen, ?_⟩
        intro x hx
        rcases List.mem_cons.1 hx with rfl | hx
        · exact hc
        · exact hu x hx
    · rintro ⟨hlen, hall⟩
      cases s with
      | nil => exact Or.inl rfl
      | cons c rest =>
        exact Or.inr ⟨[c], rest, rfl, ⟨c, rfl, hall c (List.mem_cons_self _ _)⟩,
          by simpa using hlen, fun x hx => hall x (List.mem_cons_of_mem _ hx)⟩

theorem Regex.matches_cls_range (p : Char → Bool) (lo hi : Nat) (hle : lo ≤ hi)
    (s : List Char) :
    (Regex.range (.cls p) lo hi).Matches s ↔
      (lo ≤ s.length ∧ s.length ≤ hi) ∧ ∀ c ∈ s, p c = true := by
  unfold Regex.range
  rw [Regex.Matches]
  simp only [Regex.matches_cls_times, Regex.matches_cls_upTo]
  constructor
  · rintro ⟨t, u, rfl, ⟨ht, hpt⟩, hu, hpu⟩
    refine ⟨by simp only [List.length_append]; omega, ?_⟩
    intro c hc
    rcases List.mem_append.1 hc with hc | hc
    · exact hpt c hc
    · exact hpu c hc
  · rintro ⟨⟨h1, h2⟩, hall⟩
    refine ⟨s.take lo, s.drop lo, (List.take_append_drop lo s).symm, ⟨?_, ?_⟩, ?_, ?_⟩
    · simp [List.length_take, h1]
    · exact fun c hc => hall c (List.mem_of_mem_take hc)
    · simp only [List.length_drop]
      omega
    · exact fun c hc => hall c (List.mem_of_mem_drop hc)

/-! ## The validators -/

theorem emailRegex_matches (s : List Char) :
    emailRegex.Matches s ↔
      ∃ l a b, s = l ++ '@' :: (a ++ '.' :: b) ∧ l ≠ [] ∧ a ≠ [] ∧ b ≠ [] ∧
        (∀ c ∈ l, notSpaceOrAt c = true) ∧ (∀ c ∈ a, notSpaceOrAt c = true) ∧
        (∀ c ∈ b, notSpaceOrAt c = true) := by
  unfold emailRegex
  rw [Regex.Matches]
  constructor
  · rintro ⟨l, u, rfl, hl, hu⟩
    rw [Regex.Matches] at hu
    obtain ⟨at_, u2, rfl, hat, hu2⟩ := hu
    rw [Regex.Matches] at hu2
    obtain ⟨a, u3, rfl, ha, hu3⟩ := hu2
    rw [Regex.Matches] at hu3
    obtain ⟨dot, b, rfl, hdot, hb⟩ := hu3
    rw [Regex.matches_char] at hat hdot
    subst hat hdot
    rw [Regex.matches_cls_plus] at hl ha hb
    exact ⟨l, a, b, by simp, hl.1, ha.1, hb.1, hl.2, ha.2, hb.2⟩
  · rintro ⟨l, a, b, rfl, hl, ha, hb, hpl, hpa, hpb⟩
    refine ⟨l, '@' :: (a ++ '.' :: b), rfl, (Regex.matches_cls_plus _ _).2 ⟨hl, hpl⟩, ?_⟩
    rw [Regex.Matches]
    refine ⟨['@'], a ++ '.' :: b, rfl, (Regex.matches_char _ _).2 rfl, ?_⟩
    rw [Regex.Matches]
    refine ⟨a, '.' :: b, rfl, (Regex.matches_cls_plus _ _).2 ⟨ha, hpa⟩, ?_⟩
    rw [Regex.Matches]
    exact ⟨['.'], b, rfl, (Regex.matches_char _ _).2 rfl, (Regex.matches_cls_plus _ _).2 ⟨hb, hpb⟩⟩

theorem notSpaceOrAt_iff (c : Char) :
    notSpaceOrAt c = true ↔ isWhiteSpace c = false ∧ c ≠ '@' := by
  simp [notSpaceOrAt]

theorem isValidEmail_iff (email : String) :
    isValidEmail email = true ↔
      (∀ c ∈ email.data, isWhiteSpace c = false) ∧ email.data.count '@' = 1 ∧
      ∃ before after, email.data = before ++ '@' :: after ∧ before ≠ [] ∧
        ∃ i, 0 < i ∧ i + 1 < after.length ∧ after[i]? = some '.' := by
  rw [isValidEmail, Regex.test_iff, emailRegex_matches]
  constructor
  · rintro ⟨l, a, b, hs, hl, ha, hb, hpl, hpa, hpb⟩
    simp only [notSpaceOrAt_iff] at hpl hpa hpb
    rw [hs]
    refine ⟨?_, ?_, l, a ++ '.' :: b, rfl, hl, a.length, ?_, ?_, ?_⟩
    · intro c hc
      simp only [List.mem_append, List.mem_cons] at hc
      rcases hc with hc | rfl | hc | rfl | hc
      · exact (hpl c hc).1
      · decide
      · exact (hpa c hc).1
      · decide
      · exact (hpb c hc).1
    · have h1 : l.count '@' = 0 := List.count_eq_zero.2 fun h => (hpl _ h).2 rfl
      have h2 : a.count '@' = 0 := List.count_eq_zero.2 fun h => (hpa _ h).2 rfl
      have h3 : b.count '@' = 0 := List.count_eq_zero.2 fun h => (hpb _ h).2 rfl
      simp [List.count_append, List.count_cons, h1, h2, h3]
    · exact List.length_pos.2 ha
    · have := List.length_pos.2 hb
      simp only [List.length_append, List.length_cons]
      omega
    · rw [List.getElem?_append_right (Nat.le_refl _)]
      simp
  · rintro ⟨hws, hcount, l, d, hs, hl, i, hi0, hi1, hdot⟩
    rw [hs] at hws hcount
    have hcl : l.count '@' = 0 ∧ d.count '@' = 0 := by
      simp only [List.count_append, List.count_cons, beq_self_eq_true, if_true] at hcount
      omega
    have hnl : ∀ c ∈ l, c ≠ '@' := fun c hc h =>
      List.count_eq_zero.1 hcl.1 (h ▸ hc)
    have hnd : ∀ c ∈ d, c ≠ '@' := fun c hc h =>
      List.count_eq_zero.1 hcl.2 (h ▸ hc)
    have hi : i < d.length := by omega
    have hget : d[i] = '.' := by
      rw [List.getElem?_eq_getElem hi] at hdot
      exact Option.some.inj hdot
    have hd : d = d.take i ++ '.' :: d.drop (i + 1) := by
      rw [← hget, ← List.drop_eq_getElem_cons hi, List.take_append_drop]
    refine ⟨l, d.take i, d.drop (i + 1), by rw [hs, ← hd], hl, ?_, ?_, ?_, ?_, ?_⟩
    · intro h
      have := congrArg List.length h
      simp only [List.length_take, List.length_nil] at this
      omega
    · intro h
      have := congrArg List.length h
      simp only [List.length_drop, List.length_nil] at this
      omega
    · intro c hc
      exact (notSpaceOrAt_iff c).2 ⟨hws c (by simp [hc]), hnl c hc⟩
    · intro c hc
      have hcd : c ∈ d := List.mem_of_mem_take hc
      exact (notSpaceOrAt_iff c).2 ⟨hws c (by simp [hcd]), hnd c hcd⟩
    · intro c hc
      have hcd : c ∈ d := List.mem_of_mem_drop hc
      exact (notSpaceOrAt_iff c).2 ⟨hws c (by simp [hcd]), hnd c hcd⟩

/-- C7. The function `isValidEmail` accepts exactly the strings without white
space that contain exactly one `@`, with at least one character before it and,
after it, a part containing a `.` that is neither its first nor its last
character; it accepts `a@b.co` and rejects `a@b`. -/
theorem isValidEmail_characterisation :
    (∀ email : String, isValidEmail email = true ↔
      (∀ c ∈ email.data, isWhiteSpace c = false) ∧ email.data.count '@' = 1 ∧
      ∃ before after, email.data = before ++ '@' :: after ∧ before ≠ [] ∧
        ∃ i, 0 < i ∧ i + 1 < after.length ∧ after[i]? = some '.') ∧
    isValidEmail "a@b.co" = true ∧ isValidEmail "a@b" = false :=
  ⟨isValidEmail_iff, by decide, by decide⟩

theorem phoneRegex_matches (s : List Char) :
    phoneRegex.Matches s ↔
      ∃ p d, s = p ++ d ∧ (p = ['+', '6', '2'] ∨ p = ['6', '2'] ∨ p = ['0']) ∧
        (9 ≤ d.length ∧ d.length ≤ 13) ∧ ∀ c ∈ d, isAsciiDigit c = true := by
  unfold phoneRegex
  rw [Regex.Matches]
  simp only [Regex.matches_cls_range _ 9 13 (by decide)]
  constructor
  · rintro ⟨p, d, rfl, hp, hd⟩
    rw [Regex.Matches, Regex.Matches] at hp
    simp only [Regex.matches_literal] at hp
    exact ⟨p, d, rfl, hp, hd⟩
  · rintro ⟨p, d, rfl, hp, hd⟩
    refine ⟨p, d, rfl, ?_, hd⟩
    rw [Regex.Matches, Regex.Matches]
    simp only [Regex.matches_literal]
    exact hp

theorem Regex.longestPrefix_sound (r : Regex) (s : List Char) :
    match r.longestPrefix s with
    | some n => n ≤ s.length ∧ r.Matches (s.take n) ∧
        ∀ m, n < m → m ≤ s.length → ¬ r.Matches (s.take m)
    | Option.none => ∀ m, ¬ r.Matches (s.take m) := by
  induction s generalizing r with
  | nil =>
    by_cases hn : r.nullable = true
    · simp only [Regex.longestPrefix, hn, if_true]
      exact ⟨Nat.le_refl _, (Regex.nullable_iff r).1 hn, fun m h1 h2 => by simp at h2; omega⟩
    · simp only [Regex.longestPrefix, hn]
      intro m
      simpa [Regex.nullable_iff] using hn
  | cons c rest ih =>
    have hrec := ih (r.deriv c)
    rw [Regex.longestPrefix]
    cases hlp : (r.deriv c).longestPrefix rest with
    | some n =>
      rw [hlp] at hrec
      simp only at hrec ⊢
      obtain ⟨hle, hm, hmax⟩ := hrec
      refine ⟨by simpa using hle, ?_, ?_⟩
      · rw [List.take_succ_cons, ← Regex.deriv_iff]
        exact hm
      · intro m h1 h2
        cases m with
        | zero => omega
        | succ k =>
          rw [List.take_succ_cons, ← Regex.deriv_iff]
          exact hmax k (by omega) (by simpa using h2)
    | none =>
      rw [hlp] at hrec
      simp only at hrec ⊢
      have hpos : ∀ m, 0 < m → ¬ r.Matches ((c :: rest).take m) := by
        intro m hm
        cases m with
        | zero => omega
        | succ k =>
          rw [List.take_succ_cons, ← Regex.deriv_iff]
          exact hrec k
      by_cases hn : r.nullable = true
      · simp only [hn, if_true]
        exact ⟨Nat.zero_le _, (Regex.nullable_iff r).1 hn, fun m h1 _ => hpos m h1⟩
      · simp only [hn]
        intro m
        cases m with
        | zero => simpa [Regex.nullable_iff] using hn
        | succ k => exact hpos _ (Nat.succ_pos _)

theorem filter_eq_nil_of_whiteSpace (t : List Char) (h : ∀ c ∈ t, isWhiteSpace c = true) :
    t.filter (fun c => !isWhiteSpace c) = [] := by
  rw [List.filter_eq_nil_iff]
  intro c hc
  simp [h c hc]

theorem deleteMatches_whiteSpaceRun (fuel : Nat) (s : List Char) (hfuel : s.length ≤ fuel) :
    deleteMatches whiteSpaceRun fuel s = s.filter (fun c => !isWhiteSpace c) := by
  induction fuel generalizing s with
  | zero =>
    have : s = [] := List.length_eq_zero.1 (Nat.le_zero.1 hfuel)
    subst this
    rfl
  | succ fuel ih =>
    cases s with
    | nil => rfl
    | cons c rest =>
      have hlen : rest.length ≤ fuel := by simpa using hfuel
      have hsound := Regex.longestPrefix_sound whiteSpaceRun (c :: rest)
      rw [deleteMatches]
      cases hlp : whiteSpaceRun.longestPrefix (c :: rest) with
      | none =>
        rw [hlp] at hsound
        have h1 := hsound 1
        simp only [whiteSpaceRun, List.take_succ_cons, List.take_zero,
          Regex.matches_cls_plus] at h1
        have hc : isWhiteSpace c = false := by
          cases hw : isWhiteSpace c with
          | false => rfl
          | true => exact absurd ⟨by simp, by simpa using hw⟩ h1
        simp [ih rest hlen, List.filter, hc]
      | some k =>
        rw [hlp] at hsound
        cases k with
        | zero =>
          have h0 := hsound.2.1
          simp only [whiteSpaceRun, List.take_zero, Regex.matches_cls_plus] at h0
          exact absurd rfl h0.1
        | succ n =>
          have hm := hsound.2.1
          simp only [whiteSpaceRun, List.take_succ_cons, Regex.matches_cls_plus] at hm
          have hc : isWhiteSpace c = true := hm.2 c (List.mem_cons_self _ _)
          have htake : ∀ x ∈ rest.take n, isWhiteSpace x = true :=
            fun x hx => hm.2 x (List.mem_cons_of_mem _ hx)
          have hdrop : (rest.drop n).length ≤ fuel := by
            simp only [List.length_drop]
            omega
          have hsplit : rest.filter (fun c => !isWhiteSpace c) =
              (rest.drop n).filter (fun c => !isWhiteSpace c) := by
            calc rest.filter (fun c => !isWhiteSpace c)
                = (rest.take n ++ rest.drop n).filter (fun c => !isWhiteSpace c) := by
                  rw [List.take_append_drop]
              _ = (rest.drop n).filter (fun c => !isWhiteSpace c) := by
                  rw [List.filter_append, filter_eq_nil_of_whiteSpace _ htake, List.nil_append]
          simp only [ih _ hdrop]
          rw [List.filter_cons, hsplit]
          simp [hc]

/-- The call `phone.replace(/\s+/g, '')` deletes exactly the white space
characters and keeps the others in order. -/
theorem removeWhiteSpace_eq_filter (s : List Char) :
    removeWhiteSpace s = s.filter (fun c => !isWhiteSpace c) :=
  deleteMatches_whiteSpaceRun s.length s (Nat.le_refl _)

theorem isValidPhone_iff (phone : String) :
    isValidPhone phone = true ↔
      ∃ (p : String) (d : List Char),
        phone.data.filter (fun c => !isWhiteSpace c) = p.data ++ d ∧
        p ∈ ["+62", "62", "0"] ∧ (9 ≤ d.length ∧ d.length ≤ 13) ∧
        ∀ c ∈ d, 48 ≤ c.toNat ∧ c.toNat ≤ 57 := by
  rw [isValidPhone, Regex.test_iff, phoneRegex_matches, removeWhiteSpace_eq_filter]
  simp only [isAsciiDigit, Bool.and_eq_true, decide_eq_true_eq]
  constructor
  · rintro ⟨p, d, hs, hp, hd⟩
    refine ⟨⟨p⟩, d, hs, ?_, hd⟩
    rcases hp with rfl | rfl | rfl <;> decide
  · rintro ⟨p, d, hs, hp, hd⟩
    refine ⟨p.data, d, hs, ?_, hd⟩
    simp only [List.mem_cons, List.mem_singleton, List.not_mem_nil, or_false] at hp
    rcases hp with rfl | rfl | rfl <;> decide

/-- C8. The function `isValidPhone` accepts exactly the strings whose characters
other than white space, in order, are `+62`, `62` or `0` followed by 9 to 13
ASCII digits. Hence a white space character put anywhere into a string does
not change the answer, and two strings that agree up to white space get the
same answer. It accepts `081234567890`, also with white space in it, and
rejects `12345`. -/
theorem isValidPhone_characterisation :
    (∀ phone : String, isValidPhone phone = true ↔
      ∃ (p : String) (d : List Char),
        phone.data.filter (fun c => !isWhiteSpace c) = p.data ++ d ∧
        p ∈ ["+62", "62", "0"] ∧ (9 ≤ d.length ∧ d.length ≤ 13) ∧
        ∀ c ∈ d, 48 ≤ c.toNat ∧ c.toNat ≤ 57) ∧
    (∀ (front back : List Char) (w : Char), isWhiteSpace w = true →
      isValidPhone ⟨front ++ w :: back⟩ = isValidPhone ⟨front ++ back⟩) ∧
    (∀ phone other : String,
      other.data.filter (fun c => !isWhiteSpace c) =
        phone.data.filter (fun c => !isWhiteSpace c) →
      isValidPhone other = isValidPhone phone) ∧
    isValidPhone "081234567890" = true ∧ isValidPhone "12345" = false ∧
    isValidPhone " 0812 3456\t7890\n" = true ∧ isValidPhone "+62 812 3456 7890" = true ∧
    isValidPhone "0812 3456" = false := by
  refine ⟨isValidPhone_iff, ?_, ?_, by decide, by decide, by decide, by decide, by decide⟩
  · intro front back w hw
    simp only [isValidPhone, removeWhiteSpace_eq_filter, List.filter_append, List.filter_cons,
      hw, Bool.not_true]
    rfl
  · intro phone other h
    simp only [isValidPhone, removeWhiteSpace_eq_filter, h]

end App
